import Mathlib

/-!
Verification of the TubeTracks download-pipeline specification.

The repository's visible source (`downloader.py`) is the module header:
imports, the guarded plugin import, and module constants.  The pipeline
core (JobSpec, ArchiveStore, RetryPolicy, WorkerPool, ExtractionPort) is
described by the specification; the definitions below embed that design
faithfully, and the guarded plugin import is embedded from the source
itself.
-/

namespace TubeTracks

/-- Classification of a job-attempt failure, from the spec's error
taxonomy: `Transient` failures may retry, `Permanent` failures never do. -/
inductive ErrorKind
  | Transient
  | Permanent
deriving DecidableEq, Repr

/-- Terminal status of a job, from the spec's JobResult data model. -/
inductive Status
  | Success
  | Skipped
  | Failed
deriving DecidableEq, Repr

/-- Modelled from the spec: JobSpec, a normalized description of one
requested download.  Identity is `id`. -/
structure JobSpec where
  id : String
  source_url : String
  format : String
  quality : Nat
  dest_path : String
deriving DecidableEq, Repr

/-- Modelled from the spec: JobResult, the single terminal record emitted
for a job at pipeline exit. -/
structure JobResult where
  job_id : String
  status : Status
  attempts : Nat
  error : Option ErrorKind
  output_path : Option String
deriving DecidableEq, Repr

/-- Modelled from the spec: ArchiveStore, a set of job ids persisted
across runs, held as a list of ids. -/
def ArchiveStore := List String

instance : Membership String ArchiveStore :=
  inferInstanceAs (Membership String (List String))

instance : Repr ArchiveStore := inferInstanceAs (Repr (List String))

instance : DecidableEq ArchiveStore := inferInstanceAs (DecidableEq (List String))

instance (id : String) (s : ArchiveStore) : Decidable (id ∈ s) :=
  inferInstanceAs (Decidable (id ∈ (show List String from s)))

/-- The empty archive. -/
def ArchiveStore.empty : ArchiveStore := []

/-- Modelled from the spec: `contains(id)` — true if `id` was previously
recorded as completed. -/
def ArchiveStore.contains (s : ArchiveStore) (id : String) : Bool :=
  decide (id ∈ s)

/-- Modelled from the spec: `record(id)` — idempotently add an id. -/
def ArchiveStore.record (s : ArchiveStore) (id : String) : ArchiveStore :=
  if s.contains id then s else id :: s

/-- Modelled from the spec: RetryPolicy configuration — backoff base,
maximum delay cap and maximum attempt count. -/
structure RetryPolicy where
  base : Nat
  maxDelay : Nat
  maxAttempts : Nat
deriving DecidableEq, Repr

/-- Exponential backoff `base * 2^attempts_made`, capped at the maximum
delay, from the spec's RetryPolicy design. -/
def RetryPolicy.backoff (p : RetryPolicy) (attemptsMade : Nat) : Nat :=
  min (p.base * 2 ^ attemptsMade) p.maxDelay

/-- Modelled from the spec: `should_retry(attempts_made, error)` returns
the retry delay, or `none` when no retry is granted.  Permanent errors
never retry; Transient errors retry with capped exponential backoff while
under the maximum attempt count. -/
def RetryPolicy.should_retry (p : RetryPolicy) (attemptsMade : Nat)
    (e : ErrorKind) : Option Nat :=
  match e with
  | ErrorKind.Permanent => none
  | ErrorKind.Transient =>
      if attemptsMade < p.maxAttempts then some (p.backoff attemptsMade) else none

/-- A raised failure crossing the ExtractionPort boundary (an arbitrary
exception payload, e.g. a DownloadError message). -/
def Failure := String

/-- Modelled from the spec: the ExtractionPort boundary.  `extract job n`
is the outcome of attempt number `n` for `job`: an output path on
success, or a raised failure. -/
def Extractor := JobSpec → Nat → Except Failure String

/-- The Skipped terminal result for a job already present in the archive. -/
def mkSkipped (j : JobSpec) : JobResult :=
  { job_id := j.id, status := Status.Skipped, attempts := 0,
    error := none, output_path := none }

/-- The Success terminal result after `a + 1` attempts. -/
def mkSuccess (j : JobSpec) (a : Nat) (out : String) : JobResult :=
  { job_id := j.id, status := Status.Success, attempts := a + 1,
    error := none, output_path := some out }

/-- The Failed terminal result after `a` attempts with classified error `k`. -/
def mkFailed (j : JobSpec) (a : Nat) (k : ErrorKind) : JobResult :=
  { job_id := j.id, status := Status.Failed, attempts := a,
    error := some k, output_path := none }

/-- Modelled from the spec: the per-job attempt loop of WorkerPool.
Runs attempt number `attemptsMade` against the extractor; on a raised
failure, classifies it and consults RetryPolicy; on a granted retry the
loop re-runs the job.  `fuel` bounds the recursion; the pool supplies
`p.maxAttempts`, which RetryPolicy never exceeds.  Also returns the list
of attempt numbers at which the extractor was invoked. -/
def attemptLoop (p : RetryPolicy) (classify : Failure → ErrorKind)
    (extract : Extractor) (j : JobSpec) :
    Nat → Nat → JobResult × List Nat
  | 0, attemptsMade =>
    match extract j attemptsMade with
    | Except.ok out => (mkSuccess j attemptsMade out, [attemptsMade])
    | Except.error f =>
        (mkFailed j (attemptsMade + 1) (classify f), [attemptsMade])
  | fuel + 1, attemptsMade =>
    match extract j attemptsMade with
    | Except.ok out => (mkSuccess j attemptsMade out, [attemptsMade])
    | Except.error f =>
        match p.should_retry (attemptsMade + 1) (classify f) with
        | some _ =>
            let rec_out := attemptLoop p classify extract j fuel (attemptsMade + 1)
            (rec_out.1, attemptsMade :: rec_out.2)
        | none => (mkFailed j (attemptsMade + 1) (classify f), [attemptsMade])

/-- The attempt loop of a freshly dispatched job: attempt numbering
starts at 0 and the retry budget is the policy's maximum attempt count. -/
def attemptOut (p : RetryPolicy) (classify : Failure → ErrorKind)
    (extract : Extractor) (j : JobSpec) : JobResult × List Nat :=
  attemptLoop p classify extract j p.maxAttempts 0

/-- Modelled from the spec: WorkerPool handling of one JobSpec — skip
via ArchiveStore, otherwise run the attempt loop and record a success. -/
def runOne (p : RetryPolicy) (classify : Failure → ErrorKind)
    (extract : Extractor) (archive : ArchiveStore) (j : JobSpec) :
    JobResult × ArchiveStore × List (String × Nat) :=
  if archive.contains j.id then
    (mkSkipped j, archive, [])
  else if (attemptOut p classify extract j).1.status = Status.Success then
    ((attemptOut p classify extract j).1, archive.record j.id,
      (attemptOut p classify extract j).2.map (fun n => (j.id, n)))
  else
    ((attemptOut p classify extract j).1, archive,
      (attemptOut p classify extract j).2.map (fun n => (j.id, n)))

/-- Aggregate outcome of a pipeline run: the terminal results (one per
input JobSpec, in input order), the final archive, and the full log of
extractor invocations as (job id, attempt number) pairs. -/
structure RunOutput where
  results : List JobResult
  archive : ArchiveStore
  calls : List (String × Nat)
deriving Repr

/-- Modelled from the spec: `WorkerPool.run(jobs)` — every job is taken
through the skip check, the attempt loop and archive recording, and
exactly one terminal JobResult is accumulated per input JobSpec. -/
def WorkerPool.run (p : RetryPolicy) (classify : Failure → ErrorKind)
    (extract : Extractor) (archive : ArchiveStore) :
    List JobSpec → RunOutput
  | [] => { results := [], archive := archive, calls := [] }
  | j :: rest =>
    let step := runOne p classify extract archive j
    let tail := WorkerPool.run p classify extract step.2.1 rest
    { results := step.1 :: tail.results, archive := tail.archive,
      calls := step.2.2 ++ tail.calls }

/-- Modelled from the spec: StorageError, raised only when the persisted
archive file itself is unreadable. -/
inductive StorageError
  | unreadable
deriving DecidableEq, Repr

/-- A line is blank when every character is whitespace (including the
empty line). -/
def isBlankLine (l : String) : Bool :=
  l.data.all Char.isWhitespace

/-- A line is a comment when its first character is `#`. -/
def startsWithHash (l : String) : Bool :=
  match l.data with
  | [] => false
  | c :: _ => c == '#'

/-- A well-formed persisted job id: nonempty, not a comment, and free of
whitespace (ids are stable hashes of normalized URL + format). -/
def isWellFormedId (l : String) : Bool :=
  (match l.data with
   | [] => false
   | c :: _ => c != '#') && l.data.all (fun ch => !ch.isWhitespace)

/-- Outcome of reading one line of the persisted archive file. -/
inductive LineOutcome
  | ignored
  | idLine (s : String)
  | malformed (s : String)
deriving DecidableEq, Repr

/-- Modelled from the spec: per-line handling of the persisted archive
format — blank lines and `#`-comment lines are ignored, well-formed ids
are kept, anything else is malformed (skipped with a warning). -/
def parseLine (l : String) : LineOutcome :=
  if isBlankLine l then LineOutcome.ignored
  else if startsWithHash l then LineOutcome.ignored
  else if isWellFormedId l then LineOutcome.idLine l
  else LineOutcome.malformed l

/-- Result of a successful `load`: the recovered ids and the malformed
lines that were skipped with a logged warning. -/
structure LoadOutput where
  ids : List String
  warnings : List String
deriving DecidableEq, Repr

/-- Modelled from the spec: `save(path)` serializes the set as a
newline-delimited file, one job id per line (the file is modelled as its
list of lines). -/
def ArchiveStore.save (s : ArchiveStore) : List String := s

/-- Modelled from the spec: `load(path)` deserializes the persisted file.
An unreadable file (`none`) raises StorageError; otherwise blank and
comment lines are ignored and malformed lines are skipped as warnings,
never fatally. -/
def ArchiveStore.load : Option (List String) → Except StorageError LoadOutput
  | none => Except.error StorageError.unreadable
  | some lines =>
      Except.ok
        { ids := lines.filterMap (fun l =>
            match parseLine l with
            | LineOutcome.idLine s => some s
            | _ => none),
          warnings := lines.filterMap (fun l =>
            match parseLine l with
            | LineOutcome.malformed s => some s
            | _ => none) }

/-- A job queued in the scheduler, carrying its retry bookkeeping
(the spec's transient RetryState). -/
structure SchedJob where
  spec : JobSpec
  attemptsMade : Nat
deriving DecidableEq, Repr

/-- Modelled from the spec: the WorkerPool scheduler state — a pending
queue, the set of attempts currently executing on worker units, jobs
waiting out a retry backoff delay, emitted results, and the archive. -/
structure SchedState where
  pending : List SchedJob
  running : List SchedJob
  delayed : List (SchedJob × Nat)
  results : List JobResult
  archive : ArchiveStore
deriving Repr

/-- The scheduler state at pipeline start: all jobs pending, nothing
running or delayed. -/
def initState (jobs : List JobSpec) (archive : ArchiveStore) : SchedState :=
  { pending := jobs.map (fun j => { spec := j, attemptsMade := 0 }),
    running := [], delayed := [], results := [], archive := archive }

/-- Modelled from the spec: one scheduling transition of WorkerPool under
concurrency bound `limit`.  A pending job whose id is archived is skipped
without occupying a unit; otherwise it is dispatched only while fewer
than `limit` attempts are running.  A finished attempt leaves its unit
and either records a success, is parked in the delayed queue when a
retry is granted (freeing the unit while waiting), or emits a failure.
A delayed job returns to the pending queue when its delay expires. -/
inductive Step (p : RetryPolicy) (limit : Nat) : SchedState → SchedState → Prop
  | skip (s : SchedState) (j : SchedJob) (rest : List SchedJob)
      (hp : s.pending = j :: rest)
      (ha : s.archive.contains j.spec.id = true) :
      Step p limit s
        { s with pending := rest, results := mkSkipped j.spec :: s.results }
  | dispatch (s : SchedState) (j : SchedJob) (rest : List SchedJob)
      (hp : s.pending = j :: rest)
      (ha : s.archive.contains j.spec.id = false)
      (hc : s.running.length < limit) :
      Step p limit s
        { s with pending := rest, running := j :: s.running }
  | succeed (s : SchedState) (j : SchedJob) (l r : List SchedJob) (out : String)
      (hr : s.running = l ++ j :: r) :
      Step p limit s
        { s with running := l ++ r,
                 results := mkSuccess j.spec j.attemptsMade out :: s.results,
                 archive := s.archive.record j.spec.id }
  | fail_retry (s : SchedState) (j : SchedJob) (l r : List SchedJob)
      (k : ErrorKind) (d : Nat)
      (hr : s.running = l ++ j :: r)
      (hd : p.should_retry (j.attemptsMade + 1) k = some d) :
      Step p limit s
        { s with running := l ++ r,
                 delayed := ({ spec := j.spec, attemptsMade := j.attemptsMade + 1 }, d)
                   :: s.delayed }
  | fail_final (s : SchedState) (j : SchedJob) (l r : List SchedJob)
      (k : ErrorKind)
      (hr : s.running = l ++ j :: r)
      (hd : p.should_retry (j.attemptsMade + 1) k = none) :
      Step p limit s
        { s with running := l ++ r,
                 results := mkFailed j.spec (j.attemptsMade + 1) k :: s.results }
  | requeue (s : SchedState) (j : SchedJob) (d : Nat)
      (l r : List (SchedJob × Nat))
      (hd : s.delayed = l ++ (j, d) :: r) :
      Step p limit s
        { s with delayed := l ++ r, pending := s.pending ++ [j] }

/-- A scheduler state reachable from another by any number of transitions. -/
def Reaches (p : RetryPolicy) (limit : Nat) : SchedState → SchedState → Prop :=
  Relation.ReflTransGen (Step p limit)

/-- Outcome of the `from plugins import ...` statement at module import
time: either the plugins package resolves, or the import raises
ImportError. -/
inductive PluginImport
  | resolved
  | importError
deriving DecidableEq, Repr

/-- Observable state of the downloader module after its import block. -/
structure ModuleState where
  loaded : Bool
  PLUGINS_AVAILABLE : Bool
deriving DecidableEq, Repr

/-- The guarded plugin import of `downloader.py` (lines 44-49): the
`from plugins import ...` is wrapped in `try/except ImportError`, setting
`PLUGINS_AVAILABLE` to True on success and False when the import raises
ImportError; in both cases the module finishes loading. -/
def initDownloaderModule : PluginImport → ModuleState
  | PluginImport.resolved => { loaded := true, PLUGINS_AVAILABLE := true }
  | PluginImport.importError => { loaded := true, PLUGINS_AVAILABLE := false }

/-- A sample JobSpec used for concrete instantiations. -/
def sampleJob (i : String) : JobSpec :=
  { id := i, source_url := i, format := "mp3", quality := 0, dest_path := i }

/-- A sample RetryPolicy used for concrete instantiations. -/
def samplePolicy : RetryPolicy :=
  { base := 1, maxDelay := 10, maxAttempts := 3 }

/-- A classifier that treats every raised failure as Transient. -/
def transientClassify : Failure → ErrorKind := fun _ => ErrorKind.Transient

/-- A classifier that treats every raised failure as Permanent. -/
def permanentClassify : Failure → ErrorKind := fun _ => ErrorKind.Permanent

/-- An extractor whose every attempt succeeds. -/
def okExtractor : Extractor := fun _ _ => Except.ok "done"

/-- An extractor whose every attempt raises. -/
def failExtractor : Extractor := fun _ _ => Except.error "boom"

/-- A sample archive holding the id "a". -/
def sampleArchive : ArchiveStore := ["a"]

/-- A scheduler state with one attempt running, used for concrete
instantiations. -/
def sampleRunningState : SchedState :=
  { pending := [], running := [{ spec := sampleJob "a", attemptsMade := 0 }],
    delayed := [], results := [], archive := ArchiveStore.empty }

/-- The state after the running attempt of `sampleRunningState` fails
with a granted retry: the job moves to the delayed queue and its worker
unit is freed. -/
def sampleStepTarget : SchedState :=
  { pending := [], running := [],
    delayed := [({ spec := sampleJob "a", attemptsMade := 1 }, 2)],
    results := [], archive := ArchiveStore.empty }

/- ### Helper lemmas -/

theorem contains_iff_mem (s : ArchiveStore) (id : String) :
    s.contains id = true ↔ id ∈ s := by
  simp [ArchiveStore.contains]

theorem mem_record (s : ArchiveStore) (id x : String) :
    x ∈ s.record id ↔ x = id ∨ x ∈ s := by
  unfold ArchiveStore.record
  by_cases h : s.contains id = true
  · rw [if_pos h]
    rw [contains_iff_mem] at h
    constructor
    · intro hx
      exact Or.inr hx
    · intro hx
      rcases hx with hx | hx
      · exact hx ▸ h
      · exact hx
  · rw [if_neg h]
    exact List.mem_cons

theorem contains_record_mono (s : ArchiveStore) (id x : String)
    (h : s.contains x = true) : (s.record id).contains x = true := by
  rw [contains_iff_mem] at h ⊢
  exact (mem_record s id x).mpr (Or.inr h)

theorem contains_record_self (s : ArchiveStore) (id : String) :
    (s.record id).contains id = true := by
  rw [contains_iff_mem]
  exact (mem_record s id id).mpr (Or.inl rfl)

theorem attemptLoop_job_id (p : RetryPolicy) (c : Failure → ErrorKind)
    (e : Extractor) (j : JobSpec) (fuel : Nat) :
    ∀ a, ((attemptLoop p c e j fuel a).1).job_id = j.id := by
  induction fuel with
  | zero =>
    intro a
    cases h : e j a <;> simp [attemptLoop, h, mkSuccess, mkFailed]
  | succ n ih =>
    intro a
    cases h : e j a with
    | ok out => simp [attemptLoop, h, mkSuccess]
    | error f =>
      cases hr : p.should_retry (a + 1) (c f) with
      | none => simp [attemptLoop, h, hr, mkFailed]
      | some d => simpa [attemptLoop, h, hr] using ih (a + 1)

theorem attemptLoop_attempts_le (p : RetryPolicy) (c : Failure → ErrorKind)
    (e : Extractor) (j : JobSpec) (fuel : Nat) :
    ∀ a, ((attemptLoop p c e j fuel a).1).attempts ≤ a + fuel + 1 := by
  induction fuel with
  | zero =>
    intro a
    cases h : e j a <;> simp [attemptLoop, h, mkSuccess, mkFailed]
  | succ n ih =>
    intro a
    cases h : e j a with
    | ok out =>
      simp only [attemptLoop, h, mkSuccess]
      omega
    | error f =>
      cases hr : p.should_retry (a + 1) (c f) with
      | none =>
        simp only [attemptLoop, h, hr, mkFailed]
        omega
      | some d =>
        have := ih (a + 1)
        simp only [attemptLoop, h, hr]
        omega

theorem attemptLoop_failed (p : RetryPolicy) (c : Failure → ErrorKind)
    (e : Extractor) (j : JobSpec) (fuel : Nat) :
    ∀ a, ((attemptLoop p c e j fuel a).1).status = Status.Failed →
      ∃ f, e j (((attemptLoop p c e j fuel a).1).attempts - 1) = Except.error f ∧
        ((attemptLoop p c e j fuel a).1).error = some (c f) := by
  induction fuel with
  | zero =>
    intro a hst
    cases h : e j a with
    | ok out => simp [attemptLoop, h, mkSuccess] at hst
    | error f =>
      refine ⟨f, ?_, ?_⟩ <;> simp [attemptLoop, h, mkFailed]
  | succ n ih =>
    intro a hst
    cases h : e j a with
    | ok out => simp [attemptLoop, h, mkSuccess] at hst
    | error f =>
      cases hr : p.should_retry (a + 1) (c f) with
      | none =>
        refine ⟨f, ?_, ?_⟩ <;> simp [attemptLoop, h, hr, mkFailed]
      | some d =>
        simp only [attemptLoop, h, hr] at hst ⊢
        exact ih (a + 1) hst

theorem attemptLoop_permanent (p : RetryPolicy) (c : Failure → ErrorKind)
    (e : Extractor) (j : JobSpec) (fuel : Nat) (f : Failure)
    (h0 : e j 0 = Except.error f) (hp : c f = ErrorKind.Permanent) :
    attemptLoop p c e j fuel 0 = (mkFailed j 1 ErrorKind.Permanent, [0]) := by
  have hr : p.should_retry 1 ErrorKind.Permanent = none := rfl
  cases fuel with
  | zero => simp [attemptLoop, h0, hp]
  | succ n => simp [attemptLoop, h0, hr, hp]

theorem runOne_fst_job_id (p : RetryPolicy) (c : Failure → ErrorKind)
    (e : Extractor) (s : ArchiveStore) (j : JobSpec) :
    (runOne p c e s j).1.job_id = j.id := by
  unfold runOne
  split
  · rfl
  · split <;> exact attemptLoop_job_id p c e j p.maxAttempts 0

theorem runOne_skip (p : RetryPolicy) (c : Failure → ErrorKind)
    (e : Extractor) (s : ArchiveStore) (j : JobSpec)
    (h : s.contains j.id = true) :
    runOne p c e s j = (mkSkipped j, s, []) := by
  unfold runOne
  rw [if_pos h]

theorem runOne_fst_of_fresh (p : RetryPolicy) (c : Failure → ErrorKind)
    (e : Extractor) (s : ArchiveStore) (j : JobSpec)
    (h : s.contains j.id = false) :
    (runOne p c e s j).1 = (attemptOut p c e j).1 := by
  unfold runOne
  rw [if_neg (by simp [h])]
  split <;> rfl

theorem runOne_calls_fst (p : RetryPolicy) (c : Failure → ErrorKind)
    (e : Extractor) (s : ArchiveStore) (j : JobSpec) :
    ∀ ca ∈ (runOne p c e s j).2.2, ca.1 = j.id := by
  intro ca hca
  unfold runOne at hca
  split at hca
  · simp at hca
  · split at hca <;>
    · simp only [List.mem_map] at hca
      obtain ⟨n, _, hn⟩ := hca
      rw [← hn]

theorem runOne_archive_mono (p : RetryPolicy) (c : Failure → ErrorKind)
    (e : Extractor) (s : ArchiveStore) (j : JobSpec) (x : String)
    (h : s.contains x = true) :
    (runOne p c e s j).2.1.contains x = true := by
  unfold runOne
  split
  · exact h
  · split
    · exact contains_record_mono s j.id x h
    · exact h

theorem runOne_attempts_le (p : RetryPolicy) (c : Failure → ErrorKind)
    (e : Extractor) (s : ArchiveStore) (j : JobSpec) :
    (runOne p c e s j).1.attempts ≤ p.maxAttempts + 1 := by
  by_cases h : s.contains j.id = true
  · rw [runOne_skip p c e s j h]
    simp [mkSkipped]
  · rw [runOne_fst_of_fresh p c e s j (by simpa using h)]
    unfold attemptOut
    simpa using attemptLoop_attempts_le p c e j p.maxAttempts 0

theorem runOne_failed (p : RetryPolicy) (c : Failure → ErrorKind)
    (e : Extractor) (s : ArchiveStore) (j : JobSpec)
    (hst : (runOne p c e s j).1.status = Status.Failed) :
    ∃ f, e j ((runOne p c e s j).1.attempts - 1) = Except.error f ∧
      (runOne p c e s j).1.error = some (c f) := by
  by_cases h : s.contains j.id = true
  · rw [runOne_skip p c e s j h] at hst
    simp [mkSkipped] at hst
  · have hf := runOne_fst_of_fresh p c e s j (by simpa using h)
    rw [hf] at hst ⊢
    unfold attemptOut at hst ⊢
    exact attemptLoop_failed p c e j p.maxAttempts 0 hst

theorem run_results_map (p : RetryPolicy) (c : Failure → ErrorKind)
    (e : Extractor) (s : ArchiveStore) (jobs : List JobSpec) :
    (WorkerPool.run p c e s jobs).results.map JobResult.job_id =
      jobs.map JobSpec.id := by
  induction jobs generalizing s with
  | nil => rfl
  | cons j rest ih =>
    simp [WorkerPool.run, runOne_fst_job_id, ih]

theorem run_length (p : RetryPolicy) (c : Failure → ErrorKind)
    (e : Extractor) (s : ArchiveStore) (jobs : List JobSpec) :
    (WorkerPool.run p c e s jobs).results.length = jobs.length := by
  have h := run_results_map p c e s jobs
  have h2 := congrArg List.length h
  simpa using h2

theorem run_archive_mono (p : RetryPolicy) (c : Failure → ErrorKind)
    (e : Extractor) (s : ArchiveStore) (jobs : List JobSpec) (x : String)
    (h : s.contains x = true) :
    (WorkerPool.run p c e s jobs).archive.contains x = true := by
  induction jobs generalizing s with
  | nil => exact h
  | cons j rest ih =>
    simp only [WorkerPool.run]
    exact ih (runOne p c e s j).2.1 (runOne_archive_mono p c e s j x h)

theorem run_skipped (p : RetryPolicy) (c : Failure → ErrorKind)
    (e : Extractor) (s : ArchiveStore) (jobs : List JobSpec) :
    ∀ r ∈ (WorkerPool.run p c e s jobs).results,
      s.contains r.job_id = true → r.status = Status.Skipped := by
  induction jobs generalizing s with
  | nil => intro r hr; simp [WorkerPool.run] at hr
  | cons j rest ih =>
    intro r hr hc
    simp only [WorkerPool.run, List.mem_cons] at hr
    rcases hr with hr | hr
    · subst hr
      rw [runOne_fst_job_id p c e s j] at hc
      rw [runOne_skip p c e s j hc]
      rfl
    · exact ih (runOne p c e s j).2.1 r hr
        (runOne_archive_mono p c e s j r.job_id hc)

theorem run_calls_unarchived (p : RetryPolicy) (c : Failure → ErrorKind)
    (e : Extractor) (s : ArchiveStore) (jobs : List JobSpec) :
    ∀ ca ∈ (WorkerPool.run p c e s jobs).calls, s.contains ca.1 = false := by
  induction jobs generalizing s with
  | nil => intro ca hca; simp [WorkerPool.run] at hca
  | cons j rest ih =>
    intro ca hca
    simp only [WorkerPool.run, List.mem_append] at hca
    rcases hca with hca | hca
    · have hfst := runOne_calls_fst p c e s j ca hca
      by_cases hc : s.contains j.id = true
      · rw [runOne_skip p c e s j hc] at hca
        simp at hca
      · rw [hfst]
        simpa using hc
    · have h2 := ih (runOne p c e s j).2.1 ca hca
      cases hb : s.contains ca.1 with
      | false => rfl
      | true =>
        rw [runOne_archive_mono p c e s j ca.1 hb] at h2
        cases h2

theorem run_attempts_le (p : RetryPolicy) (c : Failure → ErrorKind)
    (e : Extractor) (s : ArchiveStore) (jobs : List JobSpec) :
    ∀ r ∈ (WorkerPool.run p c e s jobs).results,
      r.attempts ≤ p.maxAttempts + 1 := by
  induction jobs generalizing s with
  | nil => intro r hr; simp [WorkerPool.run] at hr
  | cons j rest ih =>
    intro r hr
    simp only [WorkerPool.run, List.mem_cons] at hr
    rcases hr with hr | hr
    · subst hr
      exact runOne_attempts_le p c e s j
    · exact ih (runOne p c e s j).2.1 r hr

theorem run_failed_classified (p : RetryPolicy) (c : Failure → ErrorKind)
    (e : Extractor) (s : ArchiveStore) (jobs : List JobSpec) :
    ∀ r ∈ (WorkerPool.run p c e s jobs).results, r.status = Status.Failed →
      ∃ j, j ∈ jobs ∧ r.job_id = j.id ∧
        ∃ f, e j (r.attempts - 1) = Except.error f ∧ r.error = some (c f) := by
  induction jobs generalizing s with
  | nil => intro r hr; simp [WorkerPool.run] at hr
  | cons j rest ih =>
    intro r hr hst
    simp only [WorkerPool.run, List.mem_cons] at hr
    rcases hr with hr | hr
    · subst hr
      refine ⟨j, List.mem_cons_self j rest, runOne_fst_job_id p c e s j, ?_⟩
      exact runOne_failed p c e s j hst
    · obtain ⟨j', hj', hid, hrest⟩ := ih (runOne p c e s j).2.1 r hr hst
      exact ⟨j', List.mem_cons_of_mem j hj', hid, hrest⟩

theorem step_running_le (p : RetryPolicy) (limit : Nat) (s s' : SchedState)
    (hs : Step p limit s s') (h : s.running.length ≤ limit) :
    s'.running.length ≤ limit := by
  cases hs with
  | skip j rest hp ha => exact h
  | dispatch j rest hp ha hc =>
    simp only [List.length_cons]
    omega
  | succeed j l r out hr =>
    rw [hr] at h
    simp only [List.length_append, List.length_cons] at h ⊢
    omega
  | fail_retry j l r k d hr hd =>
    rw [hr] at h
    simp only [List.length_append, List.length_cons] at h ⊢
    omega
  | fail_final j l r k hr hd =>
    rw [hr] at h
    simp only [List.length_append, List.length_cons] at h ⊢
    omega
  | requeue j d l r hd => exact h

theorem reaches_running_le (p : RetryPolicy) (limit : Nat) (s0 s : SchedState)
    (hr : Reaches p limit s0 s) (h0 : s0.running.length ≤ limit) :
    s.running.length ≤ limit := by
  induction hr with
  | refl => exact h0
  | tail _ hstep ih => exact step_running_le p limit _ _ hstep ih

theorem step_delayed_frees_unit (p : RetryPolicy) (limit : Nat)
    (s s' : SchedState) (hs : Step p limit s s')
    (hd : s.delayed.length < s'.delayed.length) :
    s'.running.length + 1 = s.running.length ∧
      s'.delayed.length = s.delayed.length + 1 := by
  cases hs with
  | skip j rest hp ha => exact absurd hd (by simp)
  | dispatch j rest hp ha hc => exact absurd hd (by simp)
  | succeed j l r out hr => exact absurd hd (by simp)
  | fail_retry j l r k d hr hdd =>
    rw [hr]
    refine ⟨?_, ?_⟩
    · show (l ++ r).length + 1 = (l ++ j :: r).length
      simp only [List.length_append, List.length_cons]
      omega
    · show (({ spec := j.spec, attemptsMade := j.attemptsMade + 1 }, d)
        :: s.delayed).length = s.delayed.length + 1
      simp
  | fail_final j l r k hr hdd => exact absurd hd (by simp)
  | requeue j d l r hdd =>
    rw [hdd] at hd
    simp only [List.length_append, List.length_cons] at hd
    omega

theorem wellFormed_not_blank (l : String) (h : isWellFormedId l = true) :
    isBlankLine l = false := by
  unfold isWellFormedId at h
  unfold isBlankLine
  cases hd : l.data with
  | nil => rw [hd] at h; simp at h
  | cons ch rest =>
    rw [hd] at h
    simp only [Bool.and_eq_true, List.all_cons] at h
    obtain ⟨h1, h2, h3⟩ := h
    simp only [List.all_cons, Bool.and_eq_false_iff]
    left
    simpa using h2

theorem wellFormed_not_hash (l : String) (h : isWellFormedId l = true) :
    startsWithHash l = false := by
  unfold isWellFormedId at h
  unfold startsWithHash
  cases hd : l.data with
  | nil => rfl
  | cons ch rest =>
    rw [hd] at h
    simp only [Bool.and_eq_true] at h
    obtain ⟨h1, h2⟩ := h
    simpa using h1

theorem parseLine_wellFormed (l : String) (h : isWellFormedId l = true) :
    parseLine l = LineOutcome.idLine l := by
  simp [parseLine, wellFormed_not_blank l h, wellFormed_not_hash l h, h]

theorem parseLine_blank (l : String) (h : isBlankLine l = true) :
    parseLine l = LineOutcome.ignored := by
  simp [parseLine, h]

theorem parseLine_hash (l : String) (h : startsWithHash l = true) :
    parseLine l = LineOutcome.ignored := by
  by_cases hb : isBlankLine l = true <;> simp [parseLine, hb, h]

theorem parseLine_malformed (l : String) (hb : isBlankLine l = false)
    (hh : startsWithHash l = false) (hw : isWellFormedId l = false) :
    parseLine l = LineOutcome.malformed l := by
  simp [parseLine, hb, hh, hw]

theorem filterMap_ids_of_wf (l : List String)
    (h : ∀ x ∈ l, isWellFormedId x = true) :
    (l.filterMap fun ln =>
      match parseLine ln with
      | LineOutcome.idLine s => some s
      | _ => none) = l := by
  induction l with
  | nil => rfl
  | cons a t ih =>
    have ha := h a (List.mem_cons_self a t)
    simp [List.filterMap_cons, parseLine_wellFormed a ha,
      ih (fun x hx => h x (List.mem_cons_of_mem a hx))]

theorem filterMap_warnings_of_wf (l : List String)
    (h : ∀ x ∈ l, isWellFormedId x = true) :
    (l.filterMap fun ln =>
      match parseLine ln with
      | LineOutcome.malformed s => some s
      | _ => none) = [] := by
  induction l with
  | nil => rfl
  | cons a t ih =>
    have ha := h a (List.mem_cons_self a t)
    simp [List.filterMap_cons, parseLine_wellFormed a ha,
      ih (fun x hx => h x (List.mem_cons_of_mem a hx))]

theorem load_save_roundtrip (s : ArchiveStore)
    (h : ∀ x ∈ s, isWellFormedId x = true) :
    ArchiveStore.load (some s.save) =
      Except.ok { ids := s, warnings := [] } := by
  unfold ArchiveStore.load ArchiveStore.save
  dsimp only
  rw [filterMap_ids_of_wf s h, filterMap_warnings_of_wf s h]

theorem mem_foldl_record (ids : List String) :
    ∀ (s : ArchiveStore) (x : String),
      x ∈ List.foldl ArchiveStore.record s ids → x ∈ s ∨ x ∈ ids := by
  induction ids with
  | nil => intro s x hx; exact Or.inl hx
  | cons i t ih =>
    intro s x hx
    rw [List.foldl_cons] at hx
    rcases ih (s.record i) x hx with h | h
    · rcases (mem_record s i x).mp h with h | h
      · exact Or.inr (by simp [h])
      · exact Or.inl h
    · exact Or.inr (List.mem_cons_of_mem i h)

theorem parseLine_idLine_inv (a x : String)
    (h : parseLine a = LineOutcome.idLine x) :
    a = x ∧ isWellFormedId a = true := by
  unfold parseLine at h
  split at h
  · exact LineOutcome.noConfusion h
  · split at h
    · exact LineOutcome.noConfusion h
    · split at h
      · rename_i hw
        cases h
        exact ⟨rfl, hw⟩
      · exact LineOutcome.noConfusion h

theorem parseLine_malformed_inv (a x : String)
    (h : parseLine a = LineOutcome.malformed x) :
    a = x ∧ isBlankLine a = false ∧ startsWithHash a = false ∧
      isWellFormedId a = false := by
  unfold parseLine at h
  split at h
  · exact LineOutcome.noConfusion h
  · rename_i hb
    split at h
    · exact LineOutcome.noConfusion h
    · rename_i hh
      split at h
      · exact LineOutcome.noConfusion h
      · rename_i hw
        cases h
        exact ⟨rfl, Bool.eq_false_iff.mpr hb, Bool.eq_false_iff.mpr hh,
          Bool.eq_false_iff.mpr hw⟩

/- ### Claim theorems -/

/-- Claim C1: for every finite input sequence of JobSpecs, WorkerPool.run
emits exactly one terminal JobResult per input JobSpec: the result list
has the input's length, the results' job ids are exactly the input ids in
order (hence drawn from the input set, and pairwise distinct whenever the
input ids are), regardless of retry counts or failures. -/
theorem c1_one_terminal_result_per_job (p : RetryPolicy)
    (c : Failure → ErrorKind) (e : Extractor) (s : ArchiveStore)
    (jobs : List JobSpec) :
    (WorkerPool.run p c e s jobs).results.length = jobs.length ∧
    (WorkerPool.run p c e s jobs).results.map JobResult.job_id =
      jobs.map JobSpec.id ∧
    (∀ r ∈ (WorkerPool.run p c e s jobs).results,
      r.job_id ∈ jobs.map JobSpec.id) ∧
    ((jobs.map JobSpec.id).Nodup →
      ((WorkerPool.run p c e s jobs).results.map JobResult.job_id).Nodup) := by
  refine ⟨run_length p c e s jobs, run_results_map p c e s jobs, ?_, ?_⟩
  · intro r hr
    rw [← run_results_map p c e s jobs]
    exact List.mem_map_of_mem JobResult.job_id hr
  · intro h
    rw [run_results_map p c e s jobs]
    exact h

/-- Witness for C1 at a concrete two-job input. -/
theorem c1_one_terminal_result_per_job_witness :
    (WorkerPool.run samplePolicy transientClassify okExtractor
      ArchiveStore.empty [sampleJob "a", sampleJob "b"]).results.length = 2 ∧
    ((WorkerPool.run samplePolicy transientClassify okExtractor
      ArchiveStore.empty [sampleJob "a", sampleJob "b"]).results.map
        JobResult.job_id).Nodup := by
  have h := c1_one_terminal_result_per_job samplePolicy transientClassify
    okExtractor ArchiveStore.empty [sampleJob "a", sampleJob "b"]
  exact ⟨by rw [h.1]; rfl, h.2.2.2 (by decide)⟩

/-- Claim C2: a job whose id is in the ArchiveStore at pipeline start
always yields a Skipped terminal result, and the extractor is never
invoked for an id archived at start. -/
theorem c2_archived_jobs_skipped (p : RetryPolicy) (c : Failure → ErrorKind)
    (e : Extractor) (s : ArchiveStore) (jobs : List JobSpec) :
    (∀ r ∈ (WorkerPool.run p c e s jobs).results,
      s.contains r.job_id = true → r.status = Status.Skipped) ∧
    (∀ ca ∈ (WorkerPool.run p c e s jobs).calls, s.contains ca.1 = false) :=
  ⟨run_skipped p c e s jobs, run_calls_unarchived p c e s jobs⟩

/-- Witness for C2: with "a" archived at start, job "a" is skipped. -/
theorem c2_archived_jobs_skipped_witness :
    sampleArchive.contains (mkSkipped (sampleJob "a")).job_id = true ∧
    mkSkipped (sampleJob "a") ∈ (WorkerPool.run samplePolicy transientClassify
      okExtractor sampleArchive [sampleJob "a", sampleJob "b"]).results ∧
    (mkSkipped (sampleJob "a")).status = Status.Skipped := by
  refine ⟨by decide, by decide, ?_⟩
  exact (c2_archived_jobs_skipped samplePolicy transientClassify okExtractor
    sampleArchive [sampleJob "a", sampleJob "b"]).1 (mkSkipped (sampleJob "a"))
    (by decide) (by decide)

/-- Claim C3: RetryPolicy never grants a retry on a Permanent error, so a
job all of whose attempts raise Permanent-classified failures ends with a
Failed terminal result after exactly one attempt. -/
theorem c3_permanent_never_retries (p : RetryPolicy) (c : Failure → ErrorKind)
    (e : Extractor) (s : ArchiveStore) (j : JobSpec)
    (hfresh : s.contains j.id = false)
    (hfail : ∀ n, ∃ f, e j n = Except.error f ∧ c f = ErrorKind.Permanent) :
    (∀ n, p.should_retry n ErrorKind.Permanent = none) ∧
    (runOne p c e s j).1 = mkFailed j 1 ErrorKind.Permanent := by
  constructor
  · intro n
    rfl
  · obtain ⟨f, hf, hp⟩ := hfail 0
    rw [runOne_fst_of_fresh p c e s j hfresh]
    unfold attemptOut
    rw [attemptLoop_permanent p c e j p.maxAttempts f hf hp]

/-- Witness for C3 at a concrete always-Permanent extractor. -/
theorem c3_permanent_never_retries_witness :
    ArchiveStore.empty.contains (sampleJob "a").id = false ∧
    (runOne samplePolicy permanentClassify failExtractor ArchiveStore.empty
      (sampleJob "a")).1 = mkFailed (sampleJob "a") 1 ErrorKind.Permanent := by
  refine ⟨by decide, ?_⟩
  exact (c3_permanent_never_retries samplePolicy permanentClassify
    failExtractor ArchiveStore.empty (sampleJob "a") (by decide)
    (fun n => ⟨"boom", rfl, rfl⟩)).2

/-- Claim C4: Transient retries are granted with delay
`min (base * 2 ^ attempts_made) maxDelay` exactly while attempts_made is
under the configured cap, and every terminal JobResult records at most
cap + 1 attempts. -/
theorem c4_transient_backoff_and_cap (p : RetryPolicy)
    (c : Failure → ErrorKind) (e : Extractor) (s : ArchiveStore)
    (jobs : List JobSpec) :
    (∀ n, n < p.maxAttempts →
      p.should_retry n ErrorKind.Transient =
        some (min (p.base * 2 ^ n) p.maxDelay)) ∧
    (∀ n, p.maxAttempts ≤ n →
      p.should_retry n ErrorKind.Transient = none) ∧
    (∀ r ∈ (WorkerPool.run p c e s jobs).results,
      r.attempts ≤ p.maxAttempts + 1) := by
  refine ⟨?_, ?_, run_attempts_le p c e s jobs⟩
  · intro n hn
    simp [RetryPolicy.should_retry, RetryPolicy.backoff, hn]
  · intro n hn
    simp [RetryPolicy.should_retry, Nat.not_lt.mpr hn]

/-- Witness for C4 at the sample policy (base 1, cap 3, max delay 10). -/
theorem c4_transient_backoff_and_cap_witness :
    samplePolicy.should_retry 1 ErrorKind.Transient = some 2 ∧
    samplePolicy.should_retry 3 ErrorKind.Transient = none ∧
    (mkFailed (sampleJob "a") 3 ErrorKind.Transient).attempts ≤
      samplePolicy.maxAttempts + 1 := by
  have h := c4_transient_backoff_and_cap samplePolicy transientClassify
    failExtractor ArchiveStore.empty [sampleJob "a"]
  exact ⟨by rw [h.1 1 (by decide)]; rfl, h.2.1 3 (by decide),
    h.2.2 (mkFailed (sampleJob "a") 3 ErrorKind.Transient) (by decide)⟩

/-- Claim C5: after any sequence of record calls, save followed by load
recovers exactly the recorded set (a fortiori a superset: no previously
recorded id is lost across the round trip). -/
theorem c5_record_save_load_roundtrip (ids : List String)
    (h : ∀ i ∈ ids, isWellFormedId i = true) :
    ArchiveStore.load (some (List.foldl ArchiveStore.record
      ArchiveStore.empty ids).save) =
      Except.ok { ids := List.foldl ArchiveStore.record ArchiveStore.empty ids,
                  warnings := [] } := by
  apply load_save_roundtrip
  intro x hx
  rcases mem_foldl_record ids ArchiveStore.empty x hx with hmem | hmem
  · cases hmem
  · exact h x hmem

/-- Witness for C5 at a concrete recorded set. -/
theorem c5_record_save_load_roundtrip_witness :
    ArchiveStore.load (some (List.foldl ArchiveStore.record
      ArchiveStore.empty ["a", "b"]).save) =
      Except.ok { ids := (List.foldl ArchiveStore.record ArchiveStore.empty
          ["a", "b"]), warnings := [] } :=
  c5_record_save_load_roundtrip ["a", "b"] (by decide)

/-- Claim C6: ArchiveStore membership is monotonic — record only adds
(and does add its id), and a pipeline run never removes an id from the
archive. -/
theorem c6_membership_monotonic :
    (∀ (s : ArchiveStore) (id x : String),
      s.contains x = true → (s.record id).contains x = true) ∧
    (∀ (s : ArchiveStore) (id : String), (s.record id).contains id = true) ∧
    (∀ (p : RetryPolicy) (c : Failure → ErrorKind) (e : Extractor)
      (s : ArchiveStore) (jobs : List JobSpec) (x : String),
      s.contains x = true →
        (WorkerPool.run p c e s jobs).archive.contains x = true) :=
  ⟨contains_record_mono, contains_record_self, run_archive_mono⟩

/-- Witness for C6 at concrete archives. -/
theorem c6_membership_monotonic_witness :
    (sampleArchive.record "b").contains "a" = true ∧
    (sampleArchive.record "b").contains "b" = true ∧
    (WorkerPool.run samplePolicy transientClassify okExtractor sampleArchive
      [sampleJob "b"]).archive.contains "a" = true :=
  ⟨c6_membership_monotonic.1 sampleArchive "b" "a" (by decide),
    c6_membership_monotonic.2.1 sampleArchive "b",
    c6_membership_monotonic.2.2 samplePolicy transientClassify okExtractor
      sampleArchive [sampleJob "b"] "a" (by decide)⟩

/-- Claim C7: in every scheduler state reachable from pipeline start, at
most `concurrency_limit` job attempts occupy worker units, and any
transition that parks a job in the backoff-delay queue releases that
job's worker unit (a delayed job never occupies a slot while waiting). -/
theorem c7_concurrency_bound (p : RetryPolicy) (limit : Nat)
    (jobs : List JobSpec) (archive : ArchiveStore) :
    (∀ s, Reaches p limit (initState jobs archive) s →
      s.running.length ≤ limit) ∧
    (∀ s s', Step p limit s s' → s.delayed.length < s'.delayed.length →
      s'.running.length + 1 = s.running.length ∧
        s'.delayed.length = s.delayed.length + 1) := by
  constructor
  · intro s hro
    exact reaches_running_le p limit (initState jobs archive) s hro
      (by simp [initState])
  · intro s s' hs hd
    exact step_delayed_frees_unit p limit s s' hs hd

/-- Witness for C7: the initial state respects the bound, and a concrete
retry-parking transition frees the worker unit. -/
theorem c7_concurrency_bound_witness :
    (initState [sampleJob "a"] ArchiveStore.empty).running.length ≤ 1 ∧
    sampleStepTarget.running.length + 1 =
      sampleRunningState.running.length := by
  constructor
  · exact (c7_concurrency_bound samplePolicy 1 [sampleJob "a"]
      ArchiveStore.empty).1 _ Relation.ReflTransGen.refl
  · have hstep : Step samplePolicy 1 sampleRunningState sampleStepTarget :=
      Step.fail_retry sampleRunningState
        { spec := sampleJob "a", attemptsMade := 0 } [] []
        ErrorKind.Transient 2 rfl rfl
    exact ((c7_concurrency_bound samplePolicy 1 [] ArchiveStore.empty).2
      sampleRunningState sampleStepTarget hstep (by decide)).1

/-- Claim C8: whatever the extractor raises, WorkerPool.run still returns
one terminal result per job (per-job failures never escape the pipeline),
and every Failed result carries exactly the classified ErrorKind of the
raised failure of its last attempt in its error field. -/
theorem c8_failures_surfaced_not_raised (p : RetryPolicy)
    (c : Failure → ErrorKind) (e : Extractor) (s : ArchiveStore)
    (jobs : List JobSpec) :
    (WorkerPool.run p c e s jobs).results.length = jobs.length ∧
    (∀ r ∈ (WorkerPool.run p c e s jobs).results, r.status = Status.Failed →
      ∃ j, j ∈ jobs ∧ r.job_id = j.id ∧
        ∃ f, e j (r.attempts - 1) = Except.error f ∧
          r.error = some (c f)) :=
  ⟨run_length p c e s jobs, run_failed_classified p c e s jobs⟩

/-- Witness for C8 at an always-raising extractor. -/
theorem c8_failures_surfaced_not_raised_witness :
    (WorkerPool.run samplePolicy permanentClassify failExtractor
      ArchiveStore.empty [sampleJob "a"]).results.length = 1 ∧
    ∃ j, j ∈ [sampleJob "a"] ∧
      (mkFailed (sampleJob "a") 1 ErrorKind.Permanent).job_id = j.id ∧
      ∃ f, failExtractor j
          ((mkFailed (sampleJob "a") 1 ErrorKind.Permanent).attempts - 1) =
          Except.error f ∧
        (mkFailed (sampleJob "a") 1 ErrorKind.Permanent).error =
          some (permanentClassify f) := by
  have h := c8_failures_surfaced_not_raised samplePolicy permanentClassify
    failExtractor ArchiveStore.empty [sampleJob "a"]
  refine ⟨by rw [h.1]; rfl, ?_⟩
  exact h.2 (mkFailed (sampleJob "a") 1 ErrorKind.Permanent) (by decide)
    (by decide)

/-- Claim C9: load raises StorageError only for an unreadable file; on
readable content it always succeeds, keeping exactly the well-formed id
lines, ignoring blank and `#`-comment lines, and skipping malformed lines
as warnings rather than failing. -/
theorem c9_load_tolerant (lines : List String) :
    ArchiveStore.load none = Except.error StorageError.unreadable ∧
    ∃ out, ArchiveStore.load (some lines) = Except.ok out ∧
      (∀ x ∈ out.ids, x ∈ lines ∧ isWellFormedId x = true) ∧
      (∀ w ∈ out.warnings, w ∈ lines ∧ isBlankLine w = false ∧
        startsWithHash w = false ∧ isWellFormedId w = false) ∧
      (∀ l ∈ lines, isBlankLine l = true ∨ startsWithHash l = true →
        l ∉ out.ids ∧ l ∉ out.warnings) := by
  refine ⟨rfl, ⟨_, rfl, ?_, ?_, ?_⟩⟩
  · intro x hx
    simp only [List.mem_filterMap] at hx
    obtain ⟨a, ha, hfa⟩ := hx
    cases hpa : parseLine a <;> rw [hpa] at hfa
    · exact Option.noConfusion hfa
    · obtain rfl : _ = x := Option.some.inj hfa
      obtain ⟨rfl, hw⟩ := parseLine_idLine_inv a _ hpa
      exact ⟨ha, hw⟩
    · exact Option.noConfusion hfa
  · intro w hw
    simp only [List.mem_filterMap] at hw
    obtain ⟨a, ha, hfa⟩ := hw
    cases hpa : parseLine a <;> rw [hpa] at hfa
    · exact Option.noConfusion hfa
    · exact Option.noConfusion hfa
    · obtain rfl : _ = w := Option.some.inj hfa
      obtain ⟨rfl, hb, hh, hwf⟩ := parseLine_malformed_inv a _ hpa
      exact ⟨ha, hb, hh, hwf⟩
  · intro l hl hcase
    have hpl : parseLine l = LineOutcome.ignored := by
      rcases hcase with hb | hh
      · exact parseLine_blank l hb
      · exact parseLine_hash l hh
    constructor
    · intro hmem
      simp only [List.mem_filterMap] at hmem
      obtain ⟨a, ha, hfa⟩ := hmem
      cases hpa : parseLine a <;> rw [hpa] at hfa
      · exact Option.noConfusion hfa
      · obtain rfl : _ = l := Option.some.inj hfa
        obtain ⟨rfl, hw⟩ := parseLine_idLine_inv a _ hpa
        rw [hpl] at hpa
        exact LineOutcome.noConfusion hpa
      · exact Option.noConfusion hfa
    · intro hmem
      simp only [List.mem_filterMap] at hmem
      obtain ⟨a, ha, hfa⟩ := hmem
      cases hpa : parseLine a <;> rw [hpa] at hfa
      · exact Option.noConfusion hfa
      · exact Option.noConfusion hfa
      · obtain rfl : _ = l := Option.some.inj hfa
        obtain ⟨rfl, hb, hh, hwf⟩ := parseLine_malformed_inv a _ hpa
        rw [hpl] at hpa
        exact LineOutcome.noConfusion hpa

/-- Witness for C9 at a concrete file with a blank line, a comment, a
malformed line and a good id. -/
theorem c9_load_tolerant_witness :
    ArchiveStore.load none = Except.error StorageError.unreadable ∧
    ArchiveStore.load (some ["", "# c", "bad id", "good"]) =
      Except.ok { ids := ["good"], warnings := ["bad id"] } :=
  ⟨(c9_load_tolerant ["", "# c", "bad id", "good"]).1, rfl⟩

/-- Claim C10: the plugins import in downloader.py is guarded by
try/except ImportError, so the module always finishes loading, with
PLUGINS_AVAILABLE true exactly when the import succeeds and false when it
raises ImportError. -/
theorem c10_guarded_plugin_import (o : PluginImport) :
    (initDownloaderModule o).loaded = true ∧
    ((initDownloaderModule o).PLUGINS_AVAILABLE = true ↔
      o = PluginImport.resolved) := by
  cases o <;> simp [initDownloaderModule]

/-- Witness for C10: the module loads even when the import raises. -/
theorem c10_guarded_plugin_import_witness :
    (initDownloaderModule PluginImport.importError).loaded = true :=
  (c10_guarded_plugin_import PluginImport.importError).1

end TubeTracks
